import Mathlib

/-!
Verification development for the multiproof trie library.

The development shallowly embeds the core of the library: the `Node` tree
model and its hashing procedure, the `insert_leaf` trie builder, the
`make_multiproof` compiler and the `rebuild` stack machine.  Byte strings
and nibble keys are both embedded as `List Nat`; the external Keccak256
hash is an abstract parameter `keccak` of the functions that commit nodes.

The nibble-key utility module and the serialization codec are external
collaborators that are not part of the embedded core source; the handful
of their operations the core consumes (construction, indexing,
common-prefix length, prefix and suffix trimming, the canonical record
encoding and its decoder) are modelled from the specification and from the
concrete byte vectors the core pins down, and each such definition is
marked `Modelled from the spec:` in its documentation.
-/

/-- Big-endian byte representation of a natural number (used by the
standard record encoding for lengths above 55). -/
def natToBEBytes (n : Nat) : List Nat :=
  if _h : n < 256 then [n]
  else natToBEBytes (n / 256) ++ [n % 256]
termination_by n
decreasing_by
  exact Nat.div_lt_self (Nat.pos_of_ne_zero (by omega)) (by omega)

/-- Modelled from the spec: the canonical byte-string item encoding of the
record-of-byte-strings codec (external collaborator).  A single byte below
128 stands for itself; otherwise the string is prefixed with 128 plus its
length (long form above 55 bytes). -/
def rlpStr (b : List Nat) : List Nat :=
  match b with
  | [x] => if x < 128 then [x] else [129, x]
  | _ =>
    if b.length ≤ 55 then (128 + b.length) :: b
    else (183 + (natToBEBytes b.length).length) :: (natToBEBytes b.length ++ b)

/-- Modelled from the spec: the canonical list encoding of the
record-of-byte-strings codec (external collaborator), as used by
`encode_list` on extension and full-node records: the concatenated item
encodings prefixed with 192 plus the payload length (long form above 55
bytes).  The in-source `full_node_hash` test vector fixes this layout. -/
def rlpEncodeList (items : List (List Nat)) : List Nat :=
  let payload := (items.map rlpStr).foldr (· ++ ·) []
  if payload.length ≤ 55 then (192 + payload.length) :: payload
  else (247 + (natToBEBytes payload.length).length) ::
       (natToBEBytes payload.length ++ payload)

/-- Modelled from the spec: the canonical encoding of a leaf record, the
output of encoding a `Leaf(key, value)` node through the external nibble
key codec.  The payload is the byte-string encodings of the raw nibble key
and of the value; the spec fixes the whole encoding of the leaf with key
`[1,2,3]` and value `[4,5,6]` to `[194,131,1,2,3,131,4,5,6]`, and the
in-source test vectors (`single_value_hash`, `full_node_hash`, which inline
the encodings of the leaves with keys `[]`, `[9]` and `[1,2,3]`) determine
the leading byte as 192 plus the compact (two nibbles per byte, one parity
byte) length of the key, `key.length / 2 + 1`. -/
def rlpLeaf (k v : List Nat) : List Nat :=
  (192 + (k.length / 2 + 1)) :: (rlpStr k ++ rlpStr v)

/-- Modelled from the spec: `NibbleKey::take_suffix` / `keep_suffix`, the
last `n` elements of a key. -/
def keep_suffix (k : List Nat) (n : Nat) : List Nat :=
  k.drop (k.length - n)

/-- Modelled from the spec: `NibbleKey::remove_prefix d` as consumed by the
leaf-splitting arm of insertion.  Section 4.2 of the spec places the
existing leaf, whose key is trimmed of its first `d + 1` elements, at slot
`existing_key[d]` when the source calls `remove_prefix d`, and the
in-source `insert_leaf_into_leaf_root_*` test vectors confirm that
behaviour. -/
def remove_prefix_model (k : List Nat) (d : Nat) : List Nat :=
  k.drop (d + 1)

/-- Common-prefix length of two keys: picks the shortest of the two and
returns the first index where it differs from the other (its length when
no difference is found), as in the source `find_common_length`.  This is
also the model of the external `NibbleKey::factor_length` /
`common_prefix_length`. -/
def commonPrefixLen : List Nat → List Nat → Nat
  | a :: as, b :: bs => if a = b then 1 + commonPrefixLen as bs else 0
  | _, _ => 0

def find_common_length (s1 s2 : List Nat) : Nat :=
  if s1.length > s2.length then commonPrefixLen s2 s1 else commonPrefixLen s1 s2

/-- The recursive node model: hash placeholder (digest and auxiliary
count), leaf (relative nibble key and value), extension (fragment and
child), 16-ary full node, and the empty-slot marker. -/
inductive Node where
  | Hash : List Nat → Nat → Node
  | Leaf : List Nat → List Nat → Node
  | Extension : List Nat → Node → Node
  | FullNode : List Node → Node
  | EmptySlot : Node

/-- Variant test used where the source compares a slot with `EmptySlot`. -/
def Node.isEmptySlot : Node → Bool
  | .EmptySlot => true
  | _ => false

mutual

/-- Canonical commitment of a node, with the external Keccak256 digest
abstracted as `keccak`: the empty slot commits to the empty byte string, a
leaf, extension or full node to its canonical record encoding when that is
at most 32 bytes long and to its digest otherwise, and a hash placeholder
to its stored digest. -/
def Node.hash (keccak : List Nat → List Nat) : Node → List Nat
  | .EmptySlot => []
  | .Leaf k v =>
    let encoding := rlpLeaf k v
    if encoding.length > 32 then keccak encoding else encoding
  | .Extension ext child =>
    let subtreeHash := Node.hash keccak child
    let encoding := rlpEncodeList [ext, subtreeHash]
    if encoding.length > 32 then keccak encoding else encoding
  | .FullNode nodes =>
    let keys := Node.hashChildren keccak nodes
    let encoding := rlpEncodeList keys
    if encoding.length > 32 then keccak encoding else encoding
  | .Hash h _ => h

/-- Hashes of the children of a full node, in slot order. -/
def Node.hashChildren (keccak : List Nat → List Nat) : List Node → List (List Nat)
  | [] => []
  | n :: rest => Node.hash keccak n :: Node.hashChildren keccak rest

end

/-- The stack-machine opcodes of a multiproof. -/
inductive Instruction where
  | BRANCH : Nat → Instruction
  | HASHER : Nat → Instruction
  | LEAF : Nat → Instruction
  | EXTENSION : List Nat → Instruction
  | ADD : Nat → Instruction

/-- The multiproof record: hashes, instructions and encoded key-value
pairs, each order-significant. -/
structure Multiproof where
  hashes : List (List Nat)
  instructions : List Instruction
  keyvals : List (List Nat)

/-- Failure modes of the canonical decoder: the input is not a list
record, an item fails to parse, or the record has fewer than the two
byte-string items the leaf constructor indexes. -/
inductive DecodeErr where
  | expectedList
  | itemParseFailed
  | tooFewItems

/-- Modelled from the spec: the item parser of the record decoder.  Reads
a sequence of byte-string items (single byte below 128, short form with a
128-plus-length prefix, long form with a 183-plus-length-of-length
prefix); anything else, or a truncated item, fails.  The recursion is
bounded by the input length, one extra unit of which is consumed per item
header, so the initial bound `l.length` of `parseStrings` never runs
out. -/
def parseStringsGo : Nat → List Nat → Option (List (List Nat))
  | _, [] => some []
  | 0, _ :: _ => none
  | fuel + 1, b :: rest =>
    if b < 128 then
      (parseStringsGo fuel rest).map ([b] :: ·)
    else if b ≤ 183 then
      let n := b - 128
      if n ≤ rest.length then
        (parseStringsGo fuel (rest.drop n)).map ((rest.take n) :: ·)
      else none
    else if b ≤ 191 then
      let ll := b - 183
      if ll ≤ rest.length then
        let lenBytes := rest.take ll
        let n := lenBytes.foldl (fun acc d => acc * 256 + d) 0
        let rest2 := rest.drop ll
        if n ≤ rest2.length then
          (parseStringsGo fuel (rest2.drop n)).map ((rest2.take n) :: ·)
        else none
      else none
    else none

def parseStrings (l : List Nat) : Option (List (List Nat)) :=
  parseStringsGo l.length l

/-- Modelled from the spec: decoding an encoded key-value record into a
node, mirroring the source decoder: the input must be a list record (its
first byte at least 192), its items are read as byte strings, and the
first two items become the key and value of a `Leaf` node — the decoder
constructs no other variant.  Indexing the first two items of a shorter
record is a failure (the source indexes `keyval[0]` and `keyval[1]`). -/
def Node.decode (bytes : List Nat) : Except DecodeErr Node :=
  match bytes with
  | [] => .error .expectedList
  | c :: rest =>
    if c < 192 then .error .expectedList
    else
      match parseStrings rest with
      | none => .error .itemParseFailed
      | some (k :: v :: _) => .ok (.Leaf k v)
      | some _ => .error .tooFewItems

/-- Failure modes of the rebuild stack machine, one per abnormal
termination of the source interpreter: a missing hash for `HASHER`, a
missing key-value entry (or a decoded record that is not a leaf, which the
source folds into the same failure) for `LEAF`, a key-value entry whose
decoding fails, stack underflow for `BRANCH`, `EXTENSION` or `ADD`, an
out-of-range slot for `BRANCH` or `ADD`, an `ADD` into a hash placeholder
or into a non-full node, and an empty stack at the terminal pop. -/
inductive RebuildErr where
  | hasherMissingHash
  | leafMissingKeyval
  | leafDecodeFailed
  | branchUnderflow
  | branchIndexPanic
  | extensionUnderflow
  | addUnderflow
  | addIndexErr
  | addIntoHash
  | addIntoOther
  | finalStackEmpty

/-- One pass of the rebuild stack machine over the instruction stream,
consuming the hash and key-value cursors left to right and returning the
final stack (the head is accessed as the top). -/
def rebuildGo : List Instruction → List (List Nat) → List (List Nat) →
    List Node → Except RebuildErr (List Node)
  | [], _, _, stack => .ok stack
  | instr :: rest, hs, kvs, stack =>
    match instr with
    | .HASHER digit =>
      match hs with
      | h :: hs2 => rebuildGo rest hs2 kvs (Node.Hash h digit :: stack)
      | [] => .error .hasherMissingHash
    | .LEAF keylength =>
      match kvs with
      | kv :: kvs2 =>
        match Node.decode kv with
        | .error _ => .error .leafDecodeFailed
        | .ok (.Leaf key value) =>
          rebuildGo rest hs kvs2 (Node.Leaf (keep_suffix key keylength) value :: stack)
        | .ok _ => .error .leafMissingKeyval
      | [] => .error .leafMissingKeyval
    | .BRANCH digit =>
      match stack with
      | node :: stack2 =>
        if digit < 16 then
          rebuildGo rest hs kvs
            (Node.FullNode ((List.replicate 16 Node.EmptySlot).set digit node) :: stack2)
        else .error .branchIndexPanic
      | [] => .error .branchUnderflow
    | .EXTENSION key =>
      match stack with
      | node :: stack2 => rebuildGo rest hs kvs (Node.Extension key node :: stack2)
      | [] => .error .extensionUnderflow
    | .ADD digit =>
      match stack with
      | el1 :: el2 :: stack2 =>
        match el2 with
        | .FullNode n2 =>
          if digit ≥ n2.length then .error .addIndexErr
          else rebuildGo rest hs kvs (Node.FullNode (n2.set digit el1) :: stack2)
        | .Hash _ _ => .error .addIntoHash
        | _ => .error .addIntoOther
      | _ => .error .addUnderflow

/-- Rebuilds the tree from the multiproof components: replays the
instructions over the given initial stack, then pops and returns the top
of the final stack (the terminal pop of an empty stack is abnormal). -/
def rebuild (stack : List Node) (proof : Multiproof) : Except RebuildErr Node :=
  match rebuildGo proof.instructions proof.hashes proof.keyvals stack with
  | .error e => .error e
  | .ok [] => .error .finalStackEmpty
  | .ok (top :: _) => .ok top

/-- Failure modes of insertion: the empty-key rejection, the
duplicate-key rejection, an out-of-range index or slice (abnormal
termination in the source), and the unsupported node kinds of the
catch-all arm. -/
inductive InsErr where
  | emptyKey
  | duplicateKey
  | indexPanic
  | unsupportedNode

theorem sizeOf_getD_lt (l : List Node) (i : Nat) (h : i < l.length) :
    sizeOf (l.getD i Node.EmptySlot) < sizeOf l := by
  induction l generalizing i with
  | nil => simp at h
  | cons a as ih =>
    cases i with
    | zero => simp [List.getD]; omega
    | succ j =>
      have hj : j < as.length := by simpa using h
      have := ih j hj
      simp [List.getD] at this ⊢
      omega

/-- Inserts a `(key, value)` pair into the subtree `root` and returns the
updated subtree.  Mirrors the source arm by arm: the empty-key rejection;
the leaf split on the common-prefix length (duplicate rejection when the
common prefix is the whole incoming key, then a fresh 16-slot full node,
optionally wrapped in an extension); the extension split on the
common-prefix length; and the full-node arm, which fills an empty slot
`key[0]` with a new leaf or recurses into the occupied slot with
`key[idx + 1 ..]` (`idx` being `key[0]`, exactly as the source slices).
Out-of-range indexing and slicing abort with `indexPanic`. -/
def insert_leaf (root : Node) (key : List Nat) (value : List Nat) :
    Except InsErr Node :=
  if key.length = 0 then .error .emptyKey
  else
    match root with
    | .Leaf leafkey leafvalue =>
      let firstdiffindex := find_common_length leafkey key
      if firstdiffindex = key.length then .error .duplicateKey
      else
        if firstdiffindex < leafkey.length ∧ firstdiffindex < key.length then
          let slotOld := leafkey.getD firstdiffindex 0
          let slotNew := key.getD firstdiffindex 0
          if slotOld < 16 ∧ slotNew < 16 then
            let res := (List.replicate 16 Node.EmptySlot).set slotOld
              (.Leaf (remove_prefix_model leafkey firstdiffindex) leafvalue)
            let res := res.set slotNew (.Leaf (key.drop (firstdiffindex + 1)) value)
            if firstdiffindex = 0 then .ok (.FullNode res)
            else .ok (.Extension (key.take firstdiffindex) (.FullNode res))
          else .error .indexPanic
        else .error .indexPanic
    | .Extension extkey child =>
      let firstdiffindex := find_common_length key extkey
      if firstdiffindex = extkey.length then
        match insert_leaf child (key.drop extkey.length) value with
        | .error e => .error e
        | .ok childroot => .ok (.Extension extkey childroot)
      else if firstdiffindex = 0 then
        if 0 < extkey.length ∧ 0 < key.length then
          let slotOld := extkey.getD 0 0
          let slotNew := key.getD 0 0
          if slotOld < 16 ∧ slotNew < 16 then
            let res := (List.replicate 16 Node.EmptySlot).set slotOld
              (if extkey.length = 1 then child else .Extension (extkey.drop 1) child)
            let res := res.set slotNew (.Leaf (key.drop 1) value)
            .ok (.FullNode res)
          else .error .indexPanic
        else .error .indexPanic
      else
        if firstdiffindex < extkey.length ∧ firstdiffindex < key.length then
          let slotOld := extkey.getD firstdiffindex 0
          let slotNew := key.getD firstdiffindex 0
          if slotOld < 16 ∧ slotNew < 16 then
            let res := (List.replicate 16 Node.EmptySlot).set slotOld
              (if extkey.length - firstdiffindex > 1 then
                .Extension (extkey.drop (firstdiffindex + 1)) child
               else child)
            let res := res.set slotNew (.Leaf (key.drop (firstdiffindex + 1)) value)
            .ok (.Extension (extkey.take firstdiffindex) (.FullNode res))
          else .error .indexPanic
        else .error .indexPanic
    | .FullNode vec =>
      let idx := key.getD 0 0
      if h : idx < vec.length then
        if (vec.getD idx .EmptySlot).isEmptySlot then
          .ok (.FullNode (vec.set idx (.Leaf (key.drop 1) value)))
        else
          if idx + 1 ≤ key.length then
            match insert_leaf (vec.getD idx .EmptySlot) (key.drop (idx + 1)) value with
            | .error e => .error e
            | .ok n => .ok (.FullNode (vec.set idx n))
          else .error .indexPanic
      else .error .indexPanic
    | _ => .error .unsupportedNode
termination_by sizeOf root
decreasing_by
  · simp
  · have h1 := sizeOf_getD_lt vec (key.getD 0 0) h
    have h2 : sizeOf vec < sizeOf (Node.FullNode vec) := by simp
    omega

/-- Failure modes of proof compilation: an empty slot as the proof target,
a leaf reached with other than exactly one requested key, a requested key
that differs from the leaf key, a requested key that does not follow the
extension fragment, a hash placeholder reached during compilation, and an
out-of-range index or slice (abnormal termination in the source). -/
inductive ProveErr where
  | emptySlotRoot
  | leafKeyCount
  | keyMismatch
  | keyNotInTree
  | hashNodeRoot
  | indexPanic

/-- Partition of the requested keys of a full node by leading nibble into
16 buckets, each entry trimmed of that leading nibble, in request order;
an empty key or a leading nibble outside the bucket range aborts (the
source indexes `k[0]` and `split[idx]`). -/
def splitKeysGo (acc : List (List (List Nat × List Nat))) :
    List (List Nat × List Nat) → Except ProveErr (List (List (List Nat × List Nat)))
  | [] => .ok acc
  | (k, v) :: rest =>
    match k with
    | [] => .error .indexPanic
    | k0 :: krest =>
      if k0 < acc.length then
        splitKeysGo (acc.set k0 (acc.getD k0 [] ++ [(krest, v)])) rest
      else .error .indexPanic

def splitKeys (keyvals : List (List Nat × List Nat)) :
    Except ProveErr (List (List (List Nat × List Nat))) :=
  splitKeysGo (List.replicate 16 []) keyvals

/-- The extension-arm key check of the compiler: every requested key must
start with the extension fragment (a key shorter than the fragment aborts
as the source slice `k[..extkey.len()]` does; a differing key fails with
the not-in-tree error).  The accepted pairs are passed through exactly as
the source pushes them — with their keys untrimmed. -/
def checkExtKeys (extkey : List Nat) :
    List (List Nat × List Nat) → Except ProveErr (List (List Nat × List Nat))
  | [] => .ok []
  | (k, v) :: rest =>
    if extkey.length ≤ k.length then
      if k.take extkey.length = extkey then
        match checkExtKeys extkey rest with
        | .error e => .error e
        | .ok t => .ok ((k, v) :: t)
      else .error .keyNotInTree
    else .error .indexPanic

mutual

/-- Generates a multiproof for the requested `(key, value)` pairs against
the subtree `root`, mirroring the source: an empty request set yields a
single `HASHER` opcode with the subtree hash; a full node partitions the
requests by leading nibble and walks the 16 slots in order through
`proveSlots`; a leaf requires exactly one request whose key equals the
leaf key and yields a `LEAF` opcode plus the encoded pair with the new
value; an extension checks the fragment against every request and recurses
into its child with the pairs `checkExtKeys` passes through, splicing the
result; empty slots and hash placeholders are errors. -/
def make_multiproof (keccak : List Nat → List Nat) (root : Node)
    (keyvals : List (List Nat × List Nat)) : Except ProveErr Multiproof :=
  if keyvals.length = 0 then
    .ok ⟨[Node.hash keccak root], [.HASHER 0], []⟩
  else
    match root with
    | .EmptySlot => .error .emptySlotRoot
    | .FullNode vec =>
      match splitKeys keyvals with
      | .error e => .error e
      | .ok split =>
        match proveSlots keccak vec split 0 true with
        | .error e => .error e
        | .ok (instrs, hs, vals) => .ok ⟨hs, instrs, vals⟩
    | .Leaf leafkey _ =>
      if keyvals.length ≠ 1 then .error .leafKeyCount
      else
        match keyvals with
        | (key, newval) :: _ =>
          if leafkey = key then .ok ⟨[], [.LEAF key.length], [rlpLeaf key newval]⟩
          else .error .keyMismatch
        | [] => .error .leafKeyCount
    | .Extension extkey child =>
      match checkExtKeys extkey keyvals with
      | .error e => .error e
      | .ok truncated =>
        match make_multiproof keccak child truncated with
        | .error e => .error e
        | .ok p => .ok ⟨p.hashes, p.instructions, p.keyvals⟩
    | .Hash _ _ => .error .hashNodeRoot
termination_by (sizeOf root, 0)
decreasing_by
  all_goals apply Prod.Lex.left
  all_goals simp

/-- The slot walk of the full-node arm: for each bucket in slot order, an
empty bucket over a non-empty child contributes `HASHER` plus `ADD(slot)`
and the child hash (an empty bucket over an empty slot contributes
nothing), and a non-empty bucket splices the recursive proof of the child
followed by `BRANCH(slot)` the first time this non-empty-bucket path is
taken and `ADD(slot)` afterwards — exactly as the source drives its
`branch` flag, which the hashed-sibling path neither consults for its own
opcode choice nor resets. -/
def proveSlots (keccak : List Nat → List Nat) (vec : List Node)
    (split : List (List (List Nat × List Nat))) (selector : Nat) (branch : Bool) :
    Except ProveErr (List Instruction × List (List Nat) × List (List Nat)) :=
  match split with
  | [] => .ok ([], [], [])
  | bucket :: restBuckets =>
    if h : selector < vec.length then
      let child := vec.getD selector .EmptySlot
      if bucket.length = 0 then
        if child.isEmptySlot then
          proveSlots keccak vec restBuckets (selector + 1) branch
        else
          match proveSlots keccak vec restBuckets (selector + 1) branch with
          | .error e => .error e
          | .ok (is, hs, vs) =>
            .ok (.HASHER 0 :: .ADD selector :: is, Node.hash keccak child :: hs, vs)
      else
        match make_multiproof keccak child bucket with
        | .error e => .error e
        | .ok p =>
          match proveSlots keccak vec restBuckets (selector + 1) false with
          | .error e => .error e
          | .ok (is, hs, vs) =>
            .ok (p.instructions ++
                  ((if branch then Instruction.BRANCH selector
                    else Instruction.ADD selector) :: is),
                 p.hashes ++ hs, p.keyvals ++ vs)
    else .error .indexPanic
termination_by (sizeOf vec, split.length)
decreasing_by
  all_goals first
    | (apply Prod.Lex.left
       exact sizeOf_getD_lt vec selector h)
    | (apply Prod.Lex.right
       simp)

end

/-- The empty 16-slot full-node root the in-source scenarios start from. -/
def emptyRoot : Node := .FullNode (List.replicate 16 .EmptySlot)

/-- Sanity check against the in-source `single_value_hash` test vector:
the embedded hashing and the modelled leaf encoding reproduce it. -/
theorem hash_single_value_vector :
    Node.hash (fun _ => []) (.Leaf [1,2,3] [4,5,6]) = [194,131,1,2,3,131,4,5,6] := by
  rfl

/-- Sanity check against the in-source `full_node_hash` test vector. -/
theorem hash_full_node_vector :
    Node.hash (fun _ => [])
      (.FullNode [.Leaf [] [4,5,6], .EmptySlot, .Leaf [9] [10,11,12],
        .EmptySlot, .EmptySlot, .EmptySlot, .EmptySlot, .EmptySlot,
        .EmptySlot, .EmptySlot, .EmptySlot, .EmptySlot, .EmptySlot,
        .EmptySlot, .EmptySlot, .EmptySlot]) =
    [220, 134, 193, 128, 131, 4, 5, 6, 128, 134, 193, 9, 131, 10, 11, 12,
     128, 128, 128, 128, 128, 128, 128, 128, 128, 128, 128, 128, 128] := by
  rfl

/-- Sanity check against the in-source `tree_with_added_branch` test: the
rebuild machine replays a `LEAF`/`BRANCH`/`LEAF`/`ADD` stream as the
source test expects. -/
theorem rebuild_added_branch_vector :
    rebuild [] ⟨[], [.LEAF 0, .BRANCH 0, .LEAF 1, .ADD 2],
        [[200,131,1,2,3,131,4,5,6], [200,131,7,8,9,131,10,11,12]]⟩ =
      .ok (.FullNode [.Leaf [] [4,5,6], .EmptySlot, .Leaf [9] [10,11,12],
        .EmptySlot, .EmptySlot, .EmptySlot, .EmptySlot, .EmptySlot,
        .EmptySlot, .EmptySlot, .EmptySlot, .EmptySlot, .EmptySlot,
        .EmptySlot, .EmptySlot, .EmptySlot]) := by rfl

/-- C1: the round-trip property fails on the code.  The trie built by
inserting keys `[1]` and `[2]` (values `[5]` and `[7]`) into an empty
16-slot full node, proven for the present key-value pair `([2], [7])`,
yields the instruction stream `HASHER, ADD(1), LEAF, BRANCH(2)`: the
hashed sibling in slot 1 precedes the first `BRANCH`, so its `ADD` finds a
single-element stack and `rebuild` aborts with a stack underflow instead
of producing a partial tree hashing to the root digest. -/
theorem claim_C1_roundtrip_fails (keccak : List Nat → List Nat) :
    insert_leaf emptyRoot [1] [5] =
      .ok (.FullNode [.EmptySlot, .Leaf [] [5], .EmptySlot, .EmptySlot, .EmptySlot,
        .EmptySlot, .EmptySlot, .EmptySlot, .EmptySlot, .EmptySlot, .EmptySlot,
        .EmptySlot, .EmptySlot, .EmptySlot, .EmptySlot, .EmptySlot])
    ∧ insert_leaf
        (.FullNode [.EmptySlot, .Leaf [] [5], .EmptySlot, .EmptySlot, .EmptySlot,
          .EmptySlot, .EmptySlot, .EmptySlot, .EmptySlot, .EmptySlot, .EmptySlot,
          .EmptySlot, .EmptySlot, .EmptySlot, .EmptySlot, .EmptySlot])
        [2] [7] =
      .ok (.FullNode [.EmptySlot, .Leaf [] [5], .Leaf [] [7], .EmptySlot, .EmptySlot,
        .EmptySlot, .EmptySlot, .EmptySlot, .EmptySlot, .EmptySlot, .EmptySlot,
        .EmptySlot, .EmptySlot, .EmptySlot, .EmptySlot, .EmptySlot])
    ∧ make_multiproof keccak
        (.FullNode [.EmptySlot, .Leaf [] [5], .Leaf [] [7], .EmptySlot, .EmptySlot,
          .EmptySlot, .EmptySlot, .EmptySlot, .EmptySlot, .EmptySlot, .EmptySlot,
          .EmptySlot, .EmptySlot, .EmptySlot, .EmptySlot, .EmptySlot])
        [([2], [7])] =
      .ok ⟨[[193, 128, 5]], [.HASHER 0, .ADD 1, .LEAF 0, .BRANCH 2], [[193, 128, 7]]⟩
    ∧ rebuild []
        ⟨[[193, 128, 5]], [.HASHER 0, .ADD 1, .LEAF 0, .BRANCH 2], [[193, 128, 7]]⟩ =
      .error .addUnderflow := by
  refine ⟨?_, ?_, ?_, ?_⟩
  · simp [insert_leaf, emptyRoot, Node.isEmptySlot]
  · simp [insert_leaf, Node.isEmptySlot]
  · simp [make_multiproof, proveSlots, splitKeys, splitKeysGo, Node.isEmptySlot,
      Node.hash, rlpLeaf, rlpStr]
  · rfl

/-- C2: on an extension node the compiler checks that every requested key
starts with the fragment, but it recurses with the keys untrimmed: proving
the key `[1,2]` against `Extension([1], Leaf([2], [5]))` passes the
fragment check (the pairs flow through `checkExtKeys` unchanged) and then
fails with the key-mismatch error at the leaf, because the untrimmed key
`[1,2]` is compared with the relative leaf key `[2]`; trimming the
fragment as the claim states would make the comparison succeed. -/
theorem claim_C2_extension_recursion_not_trimmed (keccak : List Nat → List Nat) :
    checkExtKeys [1] [([1, 2], [5])] = .ok [([1, 2], [5])]
    ∧ make_multiproof keccak (.Extension [1] (.Leaf [2] [5])) [([1, 2], [5])] =
        .error .keyMismatch
    ∧ make_multiproof keccak (.Leaf [2] [5]) [([2], [5])] =
        .ok ⟨[], [.LEAF 1], [rlpLeaf [2] [5]]⟩ := by
  refine ⟨rfl, ?_, ?_⟩
  · simp [make_multiproof, checkExtKeys]
  · simp [make_multiproof]

/-- C3: the full-node arm of insertion recurses into an occupied slot with
`key[idx + 1 ..]` where `idx = key[0]`, not with the key trimmed of its
first element: inserting key `[1,7]` into a full node whose slot 1 holds
`Leaf([5], [3])` recurses with `[1,7][2..] = []` and fails with the
empty-key error, while the recursion with the key trimmed of exactly its
first element (`[7]`, as the claim states) succeeds. -/
theorem claim_C3_fullnode_recursion_wrong_trim :
    insert_leaf
      (.FullNode [.EmptySlot, .Leaf [5] [3], .EmptySlot, .EmptySlot, .EmptySlot,
        .EmptySlot, .EmptySlot, .EmptySlot, .EmptySlot, .EmptySlot, .EmptySlot,
        .EmptySlot, .EmptySlot, .EmptySlot, .EmptySlot, .EmptySlot])
      [1, 7] [9] = .error .emptyKey
    ∧ insert_leaf (.Leaf [5] [3]) (List.drop 1 [1, 7]) [9] =
      .ok (.FullNode [.EmptySlot, .EmptySlot, .EmptySlot, .EmptySlot, .EmptySlot,
        .Leaf [] [3], .EmptySlot, .Leaf [] [9], .EmptySlot, .EmptySlot, .EmptySlot,
        .EmptySlot, .EmptySlot, .EmptySlot, .EmptySlot, .EmptySlot]) := by
  refine ⟨?_, ?_⟩
  · simp [insert_leaf, Node.isEmptySlot]
  · simp [insert_leaf, find_common_length, commonPrefixLen, remove_prefix_model]

/-- C4: in the full-node arm of the compiler the first contributing slot
does not always emit `BRANCH`: a hashed sibling always emits
`HASHER` then `ADD(slot)` and leaves the first-contribution flag alone, so
when the first contributing slot in 0..15 order is a hashed sibling (slot
0 below), it emits `ADD(0)` and the `BRANCH` is emitted later by the first
recursively proven slot (slot 1). -/
theorem claim_C4_first_contributing_slot_gets_add (keccak : List Nat → List Nat) :
    make_multiproof keccak
      (.FullNode [.Leaf [] [9], .Leaf [] [11], .EmptySlot, .EmptySlot, .EmptySlot,
        .EmptySlot, .EmptySlot, .EmptySlot, .EmptySlot, .EmptySlot, .EmptySlot,
        .EmptySlot, .EmptySlot, .EmptySlot, .EmptySlot, .EmptySlot])
      [([1], [11])] =
    .ok ⟨[[193, 128, 9]], [.HASHER 0, .ADD 0, .LEAF 0, .BRANCH 1], [[193, 128, 11]]⟩ := by
  simp [make_multiproof, proveSlots, splitKeys, splitKeysGo, Node.isEmptySlot,
    Node.hash, rlpLeaf, rlpStr]

/-- C5 counterexample: a proof whose replay leaves two nodes on the stack
is not rejected — after the two `LEAF` instructions the final stack holds
two leaves, yet `rebuild` succeeds and returns the top one, where the
claim requires a malformed-proof error for any final depth other than
one. -/
theorem claim_C5_counterexample :
    rebuildGo [.LEAF 0, .LEAF 0] [] [[193, 128, 5], [193, 128, 7]] [] =
      .ok [.Leaf [] [7], .Leaf [] [5]]
    ∧ rebuild [] ⟨[], [.LEAF 0, .LEAF 0], [[193, 128, 5], [193, 128, 7]]⟩ =
      .ok (.Leaf [] [7]) :=
  ⟨rfl, rfl⟩

/-- C5 amended: after all instructions are consumed, `rebuild` fails only
when the final stack is empty (the terminal pop of the source panics
there); otherwise it returns the top of the final stack, whatever its
depth — a surplus of two or more nodes is not detected as an error. -/
theorem claim_C5_final_stack (st : List Node) (p : Multiproof) (s : List Node)
    (h : rebuildGo p.instructions p.hashes p.keyvals st = .ok s) :
    rebuild st p =
      match s with
      | [] => .error .finalStackEmpty
      | n :: _ => .ok n := by
  cases s with
  | nil => simp [rebuild, h]
  | cons n t => simp [rebuild, h]

/-- C5 witness: the amended statement applied to a one-instruction proof. -/
theorem claim_C5_final_stack_witness :
    rebuildGo [.LEAF 0] [] [[193, 128, 9]] [] = .ok [.Leaf [] [9]]
    ∧ rebuild [] ⟨[], [.LEAF 0], [[193, 128, 9]]⟩ = .ok (.Leaf [] [9]) :=
  ⟨rfl, claim_C5_final_stack [] ⟨[], [.LEAF 0], [[193, 128, 9]]⟩ [.Leaf [] [9]] rfl⟩

/-- C6: a key already terminating at a leaf of the tree is not always
rejected.  Inserting `[1,5,6]` (value `[3]`) into the empty root places
`Leaf([5,6], [3])` in slot 1, so `[1,5,6]` terminates at that leaf;
re-inserting `[1,5,6]` then recurses with the mis-trimmed remainder `[6]`
(see C3), misses the duplicate check, and succeeds, restructuring the tree
— where the claim requires a duplicate-key failure that leaves the tree
unchanged. -/
theorem claim_C6_duplicate_not_rejected :
    insert_leaf emptyRoot [1, 5, 6] [3] =
      .ok (.FullNode [.EmptySlot, .Leaf [5, 6] [3], .EmptySlot, .EmptySlot, .EmptySlot,
        .EmptySlot, .EmptySlot, .EmptySlot, .EmptySlot, .EmptySlot, .EmptySlot,
        .EmptySlot, .EmptySlot, .EmptySlot, .EmptySlot, .EmptySlot])
    ∧ insert_leaf
        (.FullNode [.EmptySlot, .Leaf [5, 6] [3], .EmptySlot, .EmptySlot, .EmptySlot,
          .EmptySlot, .EmptySlot, .EmptySlot, .EmptySlot, .EmptySlot, .EmptySlot,
          .EmptySlot, .EmptySlot, .EmptySlot, .EmptySlot, .EmptySlot])
        [1, 5, 6] [9] =
      .ok (.FullNode [.EmptySlot,
        .FullNode [.EmptySlot, .EmptySlot, .EmptySlot, .EmptySlot, .EmptySlot,
          .Leaf [6] [3], .Leaf [] [9], .EmptySlot, .EmptySlot, .EmptySlot, .EmptySlot,
          .EmptySlot, .EmptySlot, .EmptySlot, .EmptySlot, .EmptySlot],
        .EmptySlot, .EmptySlot, .EmptySlot, .EmptySlot, .EmptySlot, .EmptySlot,
        .EmptySlot, .EmptySlot, .EmptySlot, .EmptySlot, .EmptySlot, .EmptySlot,
        .EmptySlot, .EmptySlot])
    ∧ (Node.FullNode [.EmptySlot,
        .FullNode [.EmptySlot, .EmptySlot, .EmptySlot, .EmptySlot, .EmptySlot,
          .Leaf [6] [3], .Leaf [] [9], .EmptySlot, .EmptySlot, .EmptySlot, .EmptySlot,
          .EmptySlot, .EmptySlot, .EmptySlot, .EmptySlot, .EmptySlot],
        .EmptySlot, .EmptySlot, .EmptySlot, .EmptySlot, .EmptySlot, .EmptySlot,
        .EmptySlot, .EmptySlot, .EmptySlot, .EmptySlot, .EmptySlot, .EmptySlot,
        .EmptySlot, .EmptySlot]) ≠
      (.FullNode [.EmptySlot, .Leaf [5, 6] [3], .EmptySlot, .EmptySlot, .EmptySlot,
        .EmptySlot, .EmptySlot, .EmptySlot, .EmptySlot, .EmptySlot, .EmptySlot,
        .EmptySlot, .EmptySlot, .EmptySlot, .EmptySlot, .EmptySlot]) := by
  refine ⟨?_, ?_, ?_⟩
  · simp [insert_leaf, emptyRoot, Node.isEmptySlot]
  · simp [insert_leaf, Node.isEmptySlot, find_common_length, commonPrefixLen,
      remove_prefix_model]
  · intro h
    simp at h

/-- C7: hashing a leaf inlines or digests its canonical encoding by size —
the hash is the encoding itself when the encoding is at most 32 bytes
long, and the digest of the encoding when it is 33 bytes or longer. -/
theorem claim_C7_leaf_hash_inlining (keccak : List Nat → List Nat) (k v : List Nat) :
    Node.hash keccak (.Leaf k v) =
      if (rlpLeaf k v).length ≤ 32 then rlpLeaf k v else keccak (rlpLeaf k v) := by
  rcases le_or_lt (rlpLeaf k v).length 32 with h | h
  · simp [Node.hash, h, Nat.not_lt.mpr h]
  · simp [Node.hash, h, Nat.not_le.mpr h]

/-- C8: hashing the leaf with the 3-nibble key `[1,2,3]` and value
`[4,5,6]` yields exactly `[194,131,1,2,3,131,4,5,6]` — the 9-byte
encoding is small enough to be inlined, so no digest is applied and the
result is independent of the digest function. -/
theorem claim_C8_concrete_leaf_hash (keccak : List Nat → List Nat) :
    Node.hash keccak (.Leaf [1, 2, 3] [4, 5, 6]) = [194, 131, 1, 2, 3, 131, 4, 5, 6] :=
  rfl

/-- C9: insertion into a leaf fails whenever the common-prefix length of
the incoming key and the leaf key equals the full length of the incoming key:
the empty incoming key is rejected up front, and any other such key —
an exact duplicate or a strict prefix of the leaf key — is rejected by
the duplicate check. -/
theorem claim_C9_leaf_prefix_rejection (lk lv key v : List Nat)
    (h : find_common_length lk key = key.length) :
    insert_leaf (.Leaf lk lv) key v =
      .error (if key.length = 0 then .emptyKey else .duplicateKey) := by
  by_cases hk : key.length = 0
  · simp [insert_leaf, hk]
  · simp [insert_leaf, hk, h]

/-- C9 witness: the key `[3]` is a strict prefix of the leaf key `[3,4]`
(common-prefix length 1, the full incoming key), and its insertion is
rejected. -/
theorem claim_C9_witness :
    find_common_length [3, 4] [3] = [3].length
    ∧ insert_leaf (.Leaf [3, 4] [5]) [3] [7] = .error .duplicateKey :=
  ⟨rfl, claim_C9_leaf_prefix_rejection [3, 4] [5] [3] [7] rfl⟩

/-- C10: every successful decoding of a key-value record is a leaf — the
decoder constructs no other node variant, so the rebuild failure branch
for a decoded non-leaf record can never be taken on a successfully decoded
entry. -/
theorem claim_C10_decoder_only_leaf (bytes : List Nat) (n : Node)
    (h : Node.decode bytes = .ok n) : ∃ k v, n = .Leaf k v := by
  unfold Node.decode at h
  cases bytes with
  | nil => exact absurd h (by simp)
  | cons c rest =>
    by_cases hc : c < 192
    · simp [hc] at h
    · simp only [hc, if_false] at h
      cases hp : parseStrings rest with
      | none => simp [hp] at h
      | some items =>
        cases items with
        | nil => simp [hp] at h
        | cons k t =>
          cases t with
          | nil => simp [hp] at h
          | cons v t2 =>
            simp [hp] at h
            exact ⟨k, v, h.symm⟩

/-- C10 witness: decoding the canonical encoding of the leaf with key
`[1,2,3]` and value `[4,5,6]` succeeds and is a leaf. -/
theorem claim_C10_witness :
    Node.decode [194, 131, 1, 2, 3, 131, 4, 5, 6] = .ok (.Leaf [1, 2, 3] [4, 5, 6])
    ∧ ∃ k v, (Node.Leaf [1, 2, 3] [4, 5, 6]) = Node.Leaf k v :=
  ⟨rfl, claim_C10_decoder_only_leaf [194, 131, 1, 2, 3, 131, 4, 5, 6]
    (.Leaf [1, 2, 3] [4, 5, 6]) rfl⟩
